import Mathlib

/-!
Verification of the NLWeb retrieval-and-grounding pipeline.

The definitions below are a shallow embedding of the JavaScript sources
(`src/server.js`, `src/server.cjs`, `src/unnamed/part_003`).  JS strings are
modelled as `List Char` (arrays of code units; the inputs of interest are
ASCII), JS finite numbers as `ℚ`, and JS arrays as `List`.  Fallible or
exception-raising code is modelled with `Except`/`Option`.
-/

/- ### Vector store: cosine similarity (src/server.js lines 24–29) -/

/-- Embeds `a.reduce((sum, val, i) => sum + val * b[i], 0)` for equal-length vectors
(the corpus invariant fixes one dimensionality `D`); modelled by zipping. -/
def dotProduct (a b : List ℚ) : ℚ :=
  (a.zip b).foldl (fun s p => s + p.1 * p.2) 0

/-- Embeds `a.reduce((sum, val) => sum + val * val, 0)`, the square of the Euclidean
norm computed in `cosineSimilarity` before `Math.sqrt` is applied. -/
def sumSq (a : List ℚ) : ℚ :=
  a.foldl (fun s v => s + v * v) 0

/-- Exact-value model of the JS number produced by `cosineSimilarity`.
`val num denomSq` stands for the real number `num / Real.sqrt denomSq` with
`denomSq ≠ 0`; the other constructors are the IEEE special values produced by
division by zero (`0/0 = NaN`, `x/0 = ±Infinity` for `x ≠ 0`). -/
inductive CosScore where
  | nan
  | posInf
  | negInf
  | val (num denomSq : ℚ)
deriving DecidableEq

/-- Embeds `function cosineSimilarity(a, b) { const dot = …; const normA = Math.sqrt(…);
const normB = Math.sqrt(…); return dot / (normA * normB); }` (server.js 24–29).
In exact arithmetic `normA * normB = Real.sqrt (sumSq a * sumSq b)`, which is
zero iff `sumSq a * sumSq b = 0`; the sign of the denominator is never
negative, so a nonzero numerator over a zero denominator gives `±Infinity`
according to the numerator's sign, and `0/0` gives `NaN`. -/
def cosineSimilarity (a b : List ℚ) : CosScore :=
  let dot := dotProduct a b
  let denomSq := sumSq a * sumSq b
  if denomSq = 0 then
    if dot = 0 then .nan else if 0 < dot then .posInf else .negInf
  else .val dot denomSq

/- ### Corpus passages and scored passages (src/server.js lines 51–56) -/

/-- One entry of `embedded_content.json`: `{ content, vector, tags? }`
(`tags` is optional in the corpus artifact, hence `Option`). -/
structure Doc where
  content : List Char
  vector : List ℚ
  tags : Option (List (List Char))
deriving DecidableEq

/-- A passage together with its per-request score, as built by
`{ ...doc, score: cosineSimilarity(doc.vector, queryVector) }`.  The selector
claims quantify over arbitrary scored sets, so the score is an abstract `ℚ`. -/
structure ScoredDoc where
  doc : Doc
  score : ℚ
deriving DecidableEq

/-- Embeds `t.toLowerCase()` on ASCII text. -/
def lowerText (s : List Char) : List Char := s.map Char.toLower

/-- Embeds `xs.includes(x)` for JS string arrays (SameValueZero = string equality). -/
def includesText (xs : List (List Char)) (x : List Char) : Bool :=
  xs.any (fun y => decide (y = x))

/-- The predicate of `doc.tags?.map(t => t.toLowerCase()).includes(industry.toLowerCase())`
(server.js line 52); an absent `tags` field makes the optional chain yield
`undefined`, which is falsy. -/
def tagMatch (ind : List Char) (d : Doc) : Bool :=
  match d.tags with
  | none => false
  | some ts => includesText (ts.map lowerText) (lowerText ind)

/-- server.cjs line 39: `doc.tags?.some(tag => tag.toLowerCase().includes(industry.toLowerCase()))`
— substring match instead of exact equality.  `sub.isSubstring t` below. -/
def startsWithSeq : List Char → List Char → Bool
  | [], _ => true
  | _ :: _, [] => false
  | p :: ps, c :: cs => decide (p = c) && startsWithSeq ps cs

/-- Contiguous-substring occurrence test (JS `String.prototype.includes`). -/
def containsSeq (pat : List Char) : List Char → Bool
  | [] => startsWithSeq pat []
  | c :: rest => startsWithSeq pat (c :: rest) || containsSeq pat rest

/-- server.cjs lines 38–40 tag predicate. -/
def tagMatchCjs (ind : List Char) (d : Doc) : Bool :=
  match d.tags with
  | none => false
  | some ts => ts.any (fun t => containsSeq (lowerText ind) (lowerText t))

/-- Embeds `embeddedDocs.filter(doc => !industry || doc.tags?...includes(...))`
(server.js lines 51–52).  A missing or empty `industry` string is falsy, so
the predicate is constantly true and the filter keeps every passage. -/
def industryFilter (industry : Option (List Char)) (docs : List Doc) : List Doc :=
  match industry with
  | none => docs
  | some ind => if ind = [] then docs else docs.filter (tagMatch ind)

/-- Embeds `.map(doc => ({ ...doc, score: cosineSimilarity(doc.vector, queryVector) }))`
with the score abstracted as `f` (the claims quantify over the query vector). -/
def scoredDocs (corpus : List Doc) (industry : Option (List Char)) (f : Doc → ℚ) :
    List ScoredDoc :=
  (industryFilter industry corpus).map (fun d => ⟨d, f d⟩)

/- ### Relevance selector (src/server.js lines 58–65) -/

/-- The similarity threshold `0.4` of `doc.score > 0.4` (server.js line 59). -/
def threshold : ℚ := 0.4

/-- The fallback count: `scored.sort(...).slice(0, 2)` (server.js line 64). -/
def fallbackCount : Nat := 2

/-- Descending-score ordering used by `.sort((a, b) => b.score - a.score)`. -/
def scoreDesc (a b : ScoredDoc) : Prop := b.score ≤ a.score

instance : DecidableRel scoreDesc :=
  fun a b => inferInstanceAs (Decidable (b.score ≤ a.score))

instance : IsTotal ScoredDoc scoreDesc :=
  ⟨fun a b => le_total b.score a.score⟩

instance : IsTrans ScoredDoc scoreDesc :=
  ⟨fun _ _ _ h1 h2 => le_trans h2 h1⟩

/-- Embeds `.sort((a, b) => b.score - a.score)` — a stable sort placing higher scores
first; modelled by stable insertion sort on the same ordering. -/
def sortByScoreDesc (l : List ScoredDoc) : List ScoredDoc :=
  l.insertionSort scoreDesc

/-- Embeds `doc.score > 0.4` (server.js line 59). -/
def aboveThreshold (d : ScoredDoc) : Bool := decide (threshold < d.score)

/-- server.js lines 58–65:
`let topRelevant = scored.filter(doc => doc.score > 0.4).sort((a,b) => b.score - a.score).slice(0, 4);
if (topRelevant.length === 0) { topRelevant = scored.sort((a,b) => b.score - a.score).slice(0, 2); }` -/
def topRelevant (scored : List ScoredDoc) : List ScoredDoc :=
  let top := (sortByScoreDesc (scored.filter aboveThreshold)).take 4
  if top.length = 0 then (sortByScoreDesc scored).take fallbackCount else top

/-- The industry-filter / score / select pipeline of server.js lines 51–65. -/
def selectTop (corpus : List Doc) (industry : Option (List Char)) (f : Doc → ℚ) :
    List ScoredDoc :=
  topRelevant (scoredDocs corpus industry f)

/- ### Helper lemmas about the selector -/

theorem sortByScoreDesc_perm (l : List ScoredDoc) :
    List.Perm (sortByScoreDesc l) l :=
  List.perm_insertionSort scoreDesc l

theorem sortByScoreDesc_sorted (l : List ScoredDoc) :
    List.Sorted scoreDesc (sortByScoreDesc l) :=
  List.sorted_insertionSort scoreDesc l

theorem mem_of_mem_topRelevant {d : ScoredDoc} {l : List ScoredDoc}
    (h : d ∈ topRelevant l) : d ∈ l := by
  unfold topRelevant at h
  by_cases hc :
      ((sortByScoreDesc (l.filter aboveThreshold)).take 4).length = 0
  · simp only [hc, if_pos] at h
    exact ((sortByScoreDesc_perm l).mem_iff).mp (List.mem_of_mem_take h)
  · simp only [hc, if_neg, if_false] at h
    have h1 : d ∈ sortByScoreDesc (l.filter aboveThreshold) :=
      List.mem_of_mem_take h
    have h2 : d ∈ l.filter aboveThreshold :=
      ((sortByScoreDesc_perm _).mem_iff).mp h1
    exact List.mem_of_mem_filter h2

/- ### Claim C1 — cosine similarity on zero-norm vectors -/

/-- C1: the claim states that a zero-norm operand yields score 0, never NaN.
The code (server.js 24–29) has no guard: with `a = [0,0]`, `b = [1,2]` the
dot product is 0 and `normA * normB` is 0, so the returned JS number is
`0/0 = NaN`, not 0 — the code contradicts the spec's required safe default. -/
theorem cosineSimilarity_zero_norm_is_nan :
    cosineSimilarity [(0 : ℚ), 0] [(1 : ℚ), 2] = CosScore.nan := by
  simp only [cosineSimilarity, dotProduct, sumSq, List.zip, List.zipWith,
    List.foldl]
  norm_num

/- ### Claim C2 — threshold selection never falls back when a score clears T -/

/-- C2: if at least one passage scores strictly above the threshold, the
fallback branch never triggers: the selection equals the passages with
score > 0.4 sorted descending and truncated to 4, is descending-sorted
(ties allowed), has length ≤ 4, and every selected score exceeds 0.4. -/
theorem topRelevant_above_threshold (scored : List ScoredDoc)
    (h : ∃ d ∈ scored, threshold < d.score) :
    topRelevant scored = (sortByScoreDesc (scored.filter aboveThreshold)).take 4
      ∧ List.Sorted scoreDesc (topRelevant scored)
      ∧ (topRelevant scored).length ≤ 4
      ∧ ∀ d ∈ topRelevant scored, threshold < d.score := by
  obtain ⟨d, hd, hs⟩ := h
  have hdf : d ∈ scored.filter aboveThreshold :=
    List.mem_filter.mpr ⟨hd, decide_eq_true hs⟩
  have hlen : 0 < (scored.filter aboveThreshold).length :=
    List.length_pos.mpr (List.ne_nil_of_mem hdf)
  have hslen : 0 < (sortByScoreDesc (scored.filter aboveThreshold)).length := by
    rwa [(sortByScoreDesc_perm _).length_eq]
  have htake :
      ¬((sortByScoreDesc (scored.filter aboveThreshold)).take 4).length = 0 := by
    rw [List.length_take]
    omega
  have heq : topRelevant scored
      = (sortByScoreDesc (scored.filter aboveThreshold)).take 4 := by
    simp only [topRelevant]
    rw [if_neg htake]
  refine ⟨heq, ?_, ?_, ?_⟩
  · rw [heq]
    exact (sortByScoreDesc_sorted _).sublist (List.take_sublist 4 _)
  · rw [heq]
    exact List.length_take_le 4 _
  · intro e he
    rw [heq] at he
    have h1 : e ∈ sortByScoreDesc (scored.filter aboveThreshold) :=
      List.mem_of_mem_take he
    have h2 : e ∈ scored.filter aboveThreshold :=
      ((sortByScoreDesc_perm _).mem_iff).mp h1
    exact of_decide_eq_true (List.mem_filter.mp h2).2

def witnessScored : List ScoredDoc := [⟨⟨("a".toList), [], none⟩, 1⟩]

theorem threshold_lt_one : threshold < 1 := by
  norm_num [threshold]

theorem witnessScored_has_above : ∃ d ∈ witnessScored, threshold < d.score :=
  ⟨⟨⟨("a".toList), [], none⟩, 1⟩, List.mem_cons_self _ _, threshold_lt_one⟩

/-- Witness for C2 at a singleton scored set whose score 1 exceeds 0.4. -/
theorem topRelevant_above_threshold_witness :
    (∃ d ∈ witnessScored, threshold < d.score)
      ∧ (topRelevant witnessScored
            = (sortByScoreDesc (witnessScored.filter aboveThreshold)).take 4
          ∧ List.Sorted scoreDesc (topRelevant witnessScored)
          ∧ (topRelevant witnessScored).length ≤ 4
          ∧ ∀ d ∈ topRelevant witnessScored, threshold < d.score) :=
  ⟨witnessScored_has_above,
    topRelevant_above_threshold witnessScored witnessScored_has_above⟩

/- ### Claim C3 — fallback selection when nothing clears the threshold -/

/-- C3: on a non-empty scored set where every score is ≤ 0.4, the selector
returns exactly `min 2 |set|` passages, sorted descending, and in particular
a non-empty selection. -/
theorem topRelevant_fallback (scored : List ScoredDoc)
    (h1 : scored ≠ []) (h2 : ∀ d ∈ scored, d.score ≤ threshold) :
    (topRelevant scored).length = min fallbackCount scored.length
      ∧ List.Sorted scoreDesc (topRelevant scored)
      ∧ topRelevant scored ≠ [] := by
  have hfil : scored.filter aboveThreshold = [] := by
    rw [List.filter_eq_nil_iff]
    intro a ha
    simp only [aboveThreshold, decide_eq_true_eq, not_lt]
    exact h2 a ha
  have heq : topRelevant scored = (sortByScoreDesc scored).take fallbackCount := by
    simp only [topRelevant, hfil]
    rfl
  have hlen : (topRelevant scored).length = min fallbackCount scored.length := by
    rw [heq, List.length_take, (sortByScoreDesc_perm scored).length_eq]
  refine ⟨hlen, ?_, ?_⟩
  · rw [heq]
    exact (sortByScoreDesc_sorted _).sublist (List.take_sublist fallbackCount _)
  · have hpos : 0 < (topRelevant scored).length := by
      rw [hlen]
      have h3 : 0 < scored.length := List.length_pos.mpr h1
      have h4 : 0 < fallbackCount := by decide
      omega
    exact List.length_pos.mp hpos

def witnessScoredLow : List ScoredDoc := [⟨⟨("b".toList), [], none⟩, 0⟩]

theorem zero_le_threshold : (0 : ℚ) ≤ threshold := by
  norm_num [threshold]

theorem witnessScoredLow_all_low : ∀ d ∈ witnessScoredLow, d.score ≤ threshold :=
  fun _ hd => (List.mem_singleton.mp hd) ▸ zero_le_threshold

/-- Witness for C3 at a singleton scored set whose only score 0 is ≤ 0.4. -/
theorem topRelevant_fallback_witness :
    (witnessScoredLow ≠ [] ∧ ∀ d ∈ witnessScoredLow, d.score ≤ threshold)
      ∧ ((topRelevant witnessScoredLow).length
            = min fallbackCount witnessScoredLow.length
          ∧ List.Sorted scoreDesc (topRelevant witnessScoredLow)
          ∧ topRelevant witnessScoredLow ≠ []) :=
  ⟨⟨List.cons_ne_nil _ _, witnessScoredLow_all_low⟩,
    topRelevant_fallback witnessScoredLow (List.cons_ne_nil _ _)
      witnessScoredLow_all_low⟩

/- ### Claim C5 — industry filtering -/

def scenarioDoc1 : Doc := ⟨("p1".toList), [], some [("banking".toList)]⟩

def scenarioDoc2 : Doc := ⟨("p2".toList), [], some [("retail".toList)]⟩

def scenarioDoc3 : Doc :=
  ⟨("p3".toList), [], some [("banking".toList), ("retail".toList)]⟩

/-- The spec's end-to-end scenario corpus: tags `["banking"]`, `["retail"]`,
`["banking","retail"]`. -/
def scenarioCorpus : List Doc := [scenarioDoc1, scenarioDoc2, scenarioDoc3]

theorem scenario_filter_eval :
    industryFilter (some ("banking".toList)) scenarioCorpus
      = [scenarioDoc1, scenarioDoc3] := by
  decide

/-- C5: with a non-empty category filter, every selected passage's lowercased
tag set contains the lowercased filter string (server.js line 52), whatever
the per-passage scores; in the spec's three-passage scenario the selection
can only contain passages 1 and 3, never the `["retail"]`-tagged passage 2,
for every score assignment (hence regardless of the query vector); the
substring-based filter of server.cjs lines 38–40 keeps only passages 1 and 3
on the same scenario as well. -/
theorem selected_tags_match_industry (corpus : List Doc) (ind : List Char)
    (f : Doc → ℚ) (h : ind ≠ []) :
    (∀ sd ∈ selectTop corpus (some ind) f, tagMatch ind sd.doc = true)
      ∧ (∀ g : Doc → ℚ,
          ∀ sd ∈ selectTop scenarioCorpus (some ("banking".toList)) g,
            sd.doc = scenarioDoc1 ∨ sd.doc = scenarioDoc3)
      ∧ (∀ d ∈ scenarioCorpus.filter (tagMatchCjs ("banking".toList)),
          d = scenarioDoc1 ∨ d = scenarioDoc3) := by
  refine ⟨?_, ?_, ?_⟩
  · intro sd hsd
    have h1 : sd ∈ scoredDocs corpus (some ind) f :=
      mem_of_mem_topRelevant hsd
    obtain ⟨d, hd, hde⟩ := List.mem_map.mp h1
    have h2 : d ∈ corpus.filter (tagMatch ind) := by
      simpa only [industryFilter, if_neg h] using hd
    have h3 : tagMatch ind d = true := (List.mem_filter.mp h2).2
    rw [← hde]
    exact h3
  · intro g sd hsd
    have h1 : sd ∈ scoredDocs scenarioCorpus (some ("banking".toList)) g :=
      mem_of_mem_topRelevant hsd
    rw [scoredDocs, scenario_filter_eval] at h1
    obtain ⟨d, hd, hde⟩ := List.mem_map.mp h1
    rw [← hde]
    simp only [List.mem_cons, List.not_mem_nil, or_false] at hd
    rcases hd with hd | hd
    · exact Or.inl (by rw [hd])
    · exact Or.inr (by rw [hd])
  · decide

/-- Witness for C5 at the scenario corpus, the filter `"banking"` and the
constant score 0. -/
theorem selected_tags_match_industry_witness :
    ("banking".toList ≠ [])
      ∧ ((∀ sd ∈ selectTop scenarioCorpus (some ("banking".toList))
              (fun _ => 0), tagMatch ("banking".toList) sd.doc = true)
          ∧ (∀ g : Doc → ℚ,
              ∀ sd ∈ selectTop scenarioCorpus (some ("banking".toList)) g,
                sd.doc = scenarioDoc1 ∨ sd.doc = scenarioDoc3)
          ∧ (∀ d ∈ scenarioCorpus.filter (tagMatchCjs ("banking".toList)),
              d = scenarioDoc1 ∨ d = scenarioDoc3)) :=
  ⟨by decide,
    selected_tags_match_industry scenarioCorpus ("banking".toList)
      (fun _ => 0) (by decide)⟩

/- ### Claim C9 — the corpus is untouched by request handling -/

/-- The mutable arrays alive in the query handler: `embeddedDocs` (the
process-wide corpus) and the per-request `scored` array. -/
structure ReqState where
  corpus : List Doc
  scored : List ScoredDoc

/-- server.js lines 51–65 with array mutation made explicit.  `filter` and
`map` (lines 51–56) allocate fresh arrays, so `scored` is a copy; the sort on
line 60 is applied to the fresh `scored.filter(...)` result, and the in-place
`scored.sort(...)` of line 64 mutates only the derived `scored` array (the
`scored2` rebinding below).  `embeddedDocs` is never the receiver of a
mutating call, which is why the corpus component is passed through. -/
def runRetrieve (corpus : List Doc) (industry : Option (List Char))
    (f : Doc → ℚ) : ReqState × List ScoredDoc :=
  let scored := scoredDocs corpus industry f
  let top := (sortByScoreDesc (scored.filter aboveThreshold)).take 4
  if top.length = 0 then
    let scored2 := sortByScoreDesc scored
    (⟨corpus, scored2⟩, scored2.take fallbackCount)
  else (⟨corpus, scored⟩, top)

/-- C9: after handling a query the corpus contents (array, order and fields)
are exactly the loaded corpus, and the selection agrees with `topRelevant`
computed on the per-request copies. -/
theorem corpus_unchanged (corpus : List Doc) (industry : Option (List Char))
    (f : Doc → ℚ) :
    (runRetrieve corpus industry f).1.corpus = corpus
      ∧ (runRetrieve corpus industry f).2
          = topRelevant (scoredDocs corpus industry f) := by
  by_cases hc :
      ((sortByScoreDesc ((scoredDocs corpus industry f).filter
          aboveThreshold)).take 4).length = 0
  · simp only [runRetrieve, topRelevant]
    simp only [if_pos hc]
    exact ⟨trivial, trivial⟩
  · simp only [runRetrieve, topRelevant]
    simp only [if_neg hc]
    exact ⟨trivial, trivial⟩

/- ### Claim C4 — context assembly and the character budget -/

/-- The paragraph separator of `.join('\n\n')`. -/
def sepPara : List Char := ['\n', '\n']

/-- server.js line 67: `const topChunks = topRelevant.map(doc => doc.content).join('\n\n');`
— no truncation is applied in this variant. -/
def topChunksJs (top : List ScoredDoc) : List Char :=
  List.intercalate sepPara (top.map (fun d => d.doc.content))

/-- server.cjs lines 120–124:
`filtered.slice(0, 5).map(doc => doc.content).join('\n\n').slice(0, 8000)`. -/
def topChunksCjs (filtered : List Doc) : List Char :=
  (List.intercalate sepPara ((filtered.take 5).map (fun d => d.content))).take 8000

/-- A corpus passage whose content alone is 8001 characters long. -/
def hugeDoc : Doc := ⟨List.replicate 8001 'x', [], none⟩

/-- C4 counterexample: the server.js context assembly has no truncation, so a
single selected passage of 8001 characters yields an assembled context of
8001 > 8000 characters. -/
theorem topChunksJs_exceeds_cap :
    8000 < (topChunksJs [⟨hugeDoc, 1⟩]).length := by
  have h1 : topChunksJs [⟨hugeDoc, 1⟩] = hugeDoc.content := by
    simp [topChunksJs, List.intercalate, List.intersperse_singleton]
  rw [h1]
  show 8000 < (List.replicate 8001 'x').length
  rw [List.length_replicate]
  norm_num

/-- C4 amended: the server.cjs context assembly hard-truncates at 8000
characters, so its assembled context never exceeds the cap for any
combination of passage sizes. -/
theorem topChunksCjs_le_cap (filtered : List Doc) :
    (topChunksCjs filtered).length ≤ 8000 := by
  simp only [topChunksCjs]
  exact List.length_take_le 8000 _

/- ### Request validation (src/server.js lines 32–38) -/

/-- One element of the request's `messages` array:
`{ role, content }`; `content` may be absent (`none`) or the empty string
(`some []`), both of which are falsy in JS. -/
structure Turn where
  role : List Char
  content : Option (List Char)
deriving DecidableEq

/-- The JSON values the `messages` field of the request body can hold after
`express.json()` parsing: absent, `null`, an array of turns, a string, a
number, a boolean, or a non-array object. -/
inductive MessagesVal where
  | undef
  | null
  | arr (ts : List Turn)
  | str (s : List Char)
  | num (q : ℚ)
  | boolv (b : Bool)
  | obj
deriving DecidableEq

/-- Embeds `const userInput = messages?.slice(-1)[0]?.content;` (server.js line 34).
Optional chaining short-circuits on `null`/`undefined`; strings have a
`slice` method and indexing a (possibly empty) string then reading
`.content` yields `undefined`; numbers, booleans and plain objects have no
callable `slice`, so the statement throws a `TypeError` (`.error`). -/
def sliceLastContent : MessagesVal → Except Unit (Option (List Char))
  | .undef => .ok none
  | .null => .ok none
  | .arr ts => .ok (match ts.getLast? with
      | none => none
      | some t => t.content)
  | .str _ => .ok none
  | .num _ => .error ()
  | .boolv _ => .error ()
  | .obj => .error ()

/-- JS truthiness of the `messages` value (`!messages`). -/
def jsTruthyMessages : MessagesVal → Bool
  | .undef => false
  | .null => false
  | .arr _ => true
  | .str s => decide (s ≠ [])
  | .num q => decide (q ≠ 0)
  | .boolv b => b
  | .obj => true

/-- Embeds `Array.isArray(messages)`. -/
def isArrayVal : MessagesVal → Bool
  | .arr _ => true
  | _ => false

/-- JS truthiness of `userInput` (`undefined` and `""` are falsy). -/
def contentTruthy : Option (List Char) → Bool
  | none => false
  | some s => decide (s ≠ [])

/-- Result of running server.js lines 33–38: a 400 response, an uncaught
`TypeError` (thrown before the `try` block, so no response is sent), or
passing validation and continuing to the upstream embedding/completion
calls with the extracted `userInput`.  Both `badRequest` and `thrown`
happen before any upstream provider call. -/
inductive HandlerOutcome where
  | badRequest
  | thrown
  | proceed (userInput : List Char)
deriving DecidableEq

/-- server.js lines 33–38: `const userInput = messages?.slice(-1)[0]?.content;
if (!messages || !Array.isArray(messages) || !userInput) { return res.status(400)... }`. -/
def validateQuery (messages : MessagesVal) : HandlerOutcome :=
  match sliceLastContent messages with
  | .error _ => .thrown
  | .ok userInput =>
    if !jsTruthyMessages messages || !isArrayVal messages
        || !contentTruthy userInput then
      .badRequest
    else .proceed (userInput.getD [])

/- ### Claim C8 — validation responds 400 before any upstream call -/

/-- C8 counterexample: a request whose `messages` field is the JSON number 5
is "not an array", yet the handler does not respond 400 — evaluating
`messages?.slice(-1)` throws a `TypeError` before the validation `if`, so no
response (and no upstream call) happens at all. -/
theorem validateQuery_number_throws :
    isArrayVal (MessagesVal.num 5) = false
      ∧ validateQuery (MessagesVal.num 5) = HandlerOutcome.thrown
      ∧ validateQuery (MessagesVal.num 5) ≠ HandlerOutcome.badRequest :=
  ⟨rfl, rfl, fun h => HandlerOutcome.noConfusion h⟩

/-- C8 amended: a missing (`undefined`/`null`) conversation, an empty array,
an array whose last turn lacks text (absent or empty `content`), or any
string value is answered with the 400 branch, before any upstream provider
call; other non-array values (numbers, booleans, plain objects) instead
throw a `TypeError` during `messages?.slice(-1)` and no 400 response is
produced (still with no upstream call). -/
theorem validateQuery_rejects_bad_requests (m : MessagesVal)
    (h : m = .undef ∨ m = .null ∨ m = .arr []
        ∨ (∃ ts t, m = .arr ts ∧ ts.getLast? = some t
            ∧ contentTruthy t.content = false)
        ∨ ∃ s, m = .str s) :
    validateQuery m = HandlerOutcome.badRequest := by
  rcases h with rfl | rfl | rfl | ⟨ts, t, rfl, hlast, hfalsy⟩ | ⟨s, rfl⟩
  · rfl
  · rfl
  · rfl
  · simp only [validateQuery, sliceLastContent, hlast, hfalsy]
    rfl
  · simp [validateQuery, sliceLastContent, isArrayVal]

/-- Witness for C8 (amended) at the empty conversation array. -/
theorem validateQuery_rejects_bad_requests_witness :
    (MessagesVal.arr [] = MessagesVal.undef ∨ MessagesVal.arr [] = .null
        ∨ MessagesVal.arr [] = .arr []
        ∨ (∃ ts t, MessagesVal.arr [] = .arr ts ∧ ts.getLast? = some t
            ∧ contentTruthy t.content = false)
        ∨ ∃ s, MessagesVal.arr [] = .str s)
      ∧ validateQuery (MessagesVal.arr []) = HandlerOutcome.badRequest :=
  ⟨Or.inr (Or.inr (Or.inl rfl)),
    validateQuery_rejects_bad_requests (MessagesVal.arr [])
      (Or.inr (Or.inr (Or.inl rfl)))⟩

/- ### Claim C10 — validation never inspects roles -/

/-- C10: validation reads only the last turn's `content`; an array whose last
element has non-empty content passes validation and proceeds to the
upstream calls whatever the `role` of that turn (or of any earlier turn) —
in particular for assistant- or system-authored last turns. -/
theorem validateQuery_ignores_role (r c : List Char) (ts : List Turn)
    (h : c ≠ []) :
    validateQuery (.arr (ts ++ [⟨r, some c⟩])) = HandlerOutcome.proceed c := by
  have hlast : (ts ++ [Turn.mk r (some c)]).getLast? = some ⟨r, some c⟩ :=
    List.getLast?_concat _
  simp only [validateQuery, sliceLastContent, hlast, jsTruthyMessages,
    isArrayVal, contentTruthy]
  rw [if_neg]
  · rfl
  · simp [h]

/-- Witness for C10: a conversation whose only turn is assistant-authored
with non-empty content is accepted and proceeds upstream. -/
theorem validateQuery_ignores_role_witness :
    ("hi".toList ≠ [])
      ∧ validateQuery
            (.arr [⟨("assistant".toList), some ("hi".toList)⟩])
          = HandlerOutcome.proceed ("hi".toList) :=
  ⟨by decide,
    validateQuery_ignores_role ("assistant".toList) ("hi".toList) []
      (by decide)⟩

/- ### Suggestion extraction (src/server.js lines 240–280) -/

/-- JS whitespace (`\s`, and the set removed by `String.prototype.trim`),
restricted to ASCII. -/
def jsWs (c : Char) : Bool :=
  c = ' ' || c = '\t' || c = '\n' || c = '\r' || c = '\x0b' || c = '\x0c'

/-- Fuel-driven worker for `splitOnList`; the fuel starts at the subject's
length and each step consumes at least one character, so it never runs out. -/
def splitOnGo (sep : List Char) : Nat → List Char → List Char → List (List Char)
  | _, acc, [] => [acc.reverse]
  | 0, acc, s => [acc.reverse ++ s]
  | fuel + 1, acc, c :: rest =>
    if startsWithSeq sep (c :: rest) then
      acc.reverse :: splitOnGo sep fuel [] ((c :: rest).drop sep.length)
    else splitOnGo sep fuel (c :: acc) rest

/-- Embeds `fullReply.split(/\nSUGGESTED:/)` and `fullReply.split(/SUGGESTED:/)` —
splitting on a literal separator, leftmost occurrences first,
non-overlapping. -/
def splitOnList (sep s : List Char) : List (List Char) :=
  splitOnGo sep s.length [] s

/-- Scan for the `]` closing a bracket token: `.*?` in `/\[(.*?)\]/` cannot
cross a line terminator, so the first `]` before any newline closes the
token; returns the enclosed characters and the remainder after the `]`. -/
def findClose : List Char → Option (List Char × List Char)
  | [] => none
  | c :: rest =>
    if c = ']' then some ([], rest)
    else if c = '\n' ∨ c = '\r' then none
    else
      match findClose rest with
      | some (inner, rem) => some (c :: inner, rem)
      | none => none

/-- Fuel-driven worker for `bracketTokens`. -/
def bracketGo : Nat → List Char → List (List Char)
  | _, [] => []
  | 0, _ => []
  | fuel + 1, c :: rest =>
    if c = '[' then
      match findClose rest with
      | some (inner, rem) =>
          (inner.filter (fun ch => !(ch = '[' || ch = ']'))) :: bracketGo fuel rem
      | none => bracketGo fuel rest
    else bracketGo fuel rest

/-- Embeds `suggestionLine.match(/\[(.*?)\]/g)?.map(s => s.replace(/\[|\]/g, '')) || []`
(server.js lines 248/255): every lazily-matched bracket token, in left-to-right
order, with all bracket characters removed — note: no cap is applied. -/
def bracketTokens (s : List Char) : List (List Char) :=
  bracketGo s.length s

/-- The marker token `SUGGESTED:`. -/
def markerText : List Char := "SUGGESTED:".toList

/-- The newline-anchored marker `/\nSUGGESTED:/` of the first split attempt. -/
def markerNL : List Char := '\n' :: markerText

/-- server.js lines 240–257: `let replyText = fullReply; let suggestions = [];
let parts = fullReply.split(/\nSUGGESTED:/); if (parts.length > 1) {...} else {
parts = fullReply.split(/SUGGESTED:/); if (parts.length > 1) {...} }` — returns
the pair `(replyText, suggestions)` before the heuristic fallback runs.
Only `parts[1]` (the text between the first and second marker occurrence) is
scanned for bracket tokens. -/
def primaryParse (fullReply : List Char) : List Char × List (List Char) :=
  let partsNL := splitOnList markerNL fullReply
  if 1 < partsNL.length then
    (partsNL.headD [], bracketTokens (partsNL.getD 1 []))
  else
    let parts := splitOnList markerText fullReply
    if 1 < parts.length then
      (parts.headD [], bracketTokens (parts.getD 1 []))
    else (fullReply, [])

/-- Embeds `(.+?)(?:\?|$)` after the cue's whitespace: the shortest non-empty
line-terminator-free capture ending immediately before a `?` (consumed) or at
the end of the input. -/
def lazyDotCapture : List Char → Option (List Char)
  | [] => none
  | c :: rest =>
    if c = '\n' ∨ c = '\r' then none
    else
      match rest with
      | [] => some [c]
      | d :: _ =>
        if d = '?' then some [c]
        else (lazyDotCapture rest).map (fun t => c :: t)

/-- Backtracking over the greedy `\s+`: try consuming `k` whitespace
characters, largest first, down to one. -/
def wsBacktrack (s : List Char) : Nat → Option (List Char)
  | 0 => none
  | k + 1 =>
    match lazyDotCapture (s.drop (k + 1)) with
    | some cap => some cap
    | none => wsBacktrack s k

/-- Embeds `\s+(.+?)(?:\?|$)` applied to the suffix after a cue word. -/
def afterCueCapture (s : List Char) : Option (List Char) :=
  wsBacktrack s (s.takeWhile jsWs).length

/-- Case-insensitive literal prefix test (the `/i` flag on ASCII). -/
def startsWithCI (pat s : List Char) : Bool :=
  decide ((s.take pat.length).map Char.toLower = pat.map Char.toLower)

/-- The alternatives of `/(?:interested in|would you like|choose between|specify)/i`,
in alternation order. -/
def cueList : List (List Char) :=
  [("interested in".toList), ("would you like".toList),
    ("choose between".toList), ("specify".toList)]

/-- Try each cue alternative at the current position, in order; alternation
backtracks to the next alternative when the rest of the pattern fails. -/
def goCues (s : List Char) : List (List Char) → Option (List Char)
  | [] => none
  | cue :: more =>
    if startsWithCI cue s then
      match afterCueCapture (s.drop cue.length) with
      | some cap => some cap
      | none => goCues s more
    else goCues s more

/-- Embeds `fullReply.match(/(?:interested in|would you like|choose between|specify)\s+(.+?)(?:\?|$)/i)`
(server.js line 262): the capture group of the leftmost match, scanning start
positions left to right. -/
def findCueCapture : List Char → Option (List Char)
  | [] => none
  | c :: rest =>
    match goCues (c :: rest) cueList with
    | some cap => some cap
    | none => findCueCapture rest

/-- One separator match of `/,\s*or\s*|,\s*|\s+or\s+/` at the head of `s`
(server.js line 267), returning the remainder after the separator.  The
alternatives are tried in order; `\s*`/`\s+` are greedy, and since no
whitespace character can start `or`, the greedy run is the only candidate
before the literal `or`. -/
def matchSep (s : List Char) : Option (List Char) :=
  match s with
  | [] => none
  | c :: t =>
    if c = ',' then
      let t1 := t.dropWhile jsWs
      if startsWithSeq ("or".toList) t1 then some ((t1.drop 2).dropWhile jsWs)
      else some t1
    else if jsWs c then
      let t1 := t.dropWhile jsWs
      if startsWithSeq ("or".toList) t1 then
        match t1.drop 2 with
        | d :: t3 => if jsWs d then some (t3.dropWhile jsWs) else none
        | [] => none
      else none
    else none

/-- Fuel-driven worker for `splitSeps`. -/
def splitSepsGo : Nat → List Char → List Char → List (List Char)
  | _, acc, [] => [acc.reverse]
  | 0, acc, s => [acc.reverse ++ s]
  | fuel + 1, acc, c :: rest =>
    match matchSep (c :: rest) with
    | some rem => acc.reverse :: splitSepsGo fuel [] rem
    | none => splitSepsGo fuel (c :: acc) rest

/-- Embeds `optionsText.split(/,\s*or\s*|,\s*|\s+or\s+/)` (server.js line 267). -/
def splitSeps (s : List Char) : List (List Char) :=
  splitSepsGo s.length [] s

/-- Embeds `.replace(/^(our\s+)?/, '')` (server.js line 268): strip a leading
lowercase `our` followed by its greedy whitespace run, if present. -/
def stripLeadingOur (s : List Char) : List Char :=
  if startsWithSeq ("our".toList) s then
    let t := s.drop 3
    match t with
    | d :: _ => if jsWs d then t.dropWhile jsWs else s
    | [] => s
  else s

/-- Literal suffix test. -/
def endsWithSeq (pat s : List Char) : Bool :=
  decide (pat.length ≤ s.length)
    && decide (s.drop (s.length - pat.length) = pat)

/-- Remove the trailing whitespace run. -/
def dropTrailingWs (s : List Char) : List Char :=
  (s.reverse.dropWhile jsWs).reverse

/-- Strip a trailing ` w` (whitespace run then word `w`) if present. -/
def stripSvcWord (w s : List Char) : Option (List Char) :=
  if endsWithSeq w s then
    let pre := s.take (s.length - w.length)
    let pre2 := dropTrailingWs pre
    if pre2.length < pre.length then some pre2 else none
  else none

/-- Embeds `.replace(/\s+(solution|services?)$/, '')` (server.js line 268): remove a
trailing `solution`/`services`/`service` together with the whitespace run
before it (`services?` greedily prefers `services`). -/
def stripTrailingSvc (s : List Char) : List Char :=
  match stripSvcWord ("solution".toList) s with
  | some r => r
  | none =>
    match stripSvcWord ("services".toList) s with
    | some r => r
    | none =>
      match stripSvcWord ("service".toList) s with
      | some r => r
      | none => s

/-- Embeds `String.prototype.trim`. -/
def jsTrim (s : List Char) : List Char :=
  ((s.dropWhile jsWs).reverse.dropWhile jsWs).reverse

/-- One candidate suggestion after the cleaning chain of server.js line 268:
`s.replace(/^(our\s+)?/, '').replace(/\s+(solution|services?)$/, '').trim()`. -/
def cleanPiece (s : List Char) : List Char :=
  jsTrim (stripTrailingSvc (stripLeadingOur s))

/-- server.js lines 260–275: the heuristic fallback.  The candidates are kept
only when between 1 and 5 of them survive the length filter
(`s.length > 2 && s.length < 50`) — note: up to 5, not 3. -/
def heuristicSuggestions (fullReply : List Char) : List (List Char) :=
  match findCueCapture fullReply with
  | none => []
  | some optionsText =>
    let potential :=
      ((splitSeps optionsText).map cleanPiece).filter
        (fun s => decide (2 < s.length) && decide (s.length < 50))
    if 0 < potential.length ∧ potential.length ≤ 5 then potential else []

/-- The buffered-mode response `{ reply, suggestions }`. -/
structure ExtractResult where
  reply : List Char
  suggestions : List (List Char)
deriving DecidableEq

/-- server.js lines 240–280: primary marker parse, then the heuristic
fallback when the primary scan found zero suggestions, and finally
`res.send({ reply: replyText?.trim(), suggestions })` — the reply text is
trimmed at the send site. -/
def extractSuggestions (fullReply : List Char) : ExtractResult :=
  let p := primaryParse fullReply
  let sugg := if p.2.length = 0 then heuristicSuggestions fullReply else p.2
  ⟨jsTrim p.1, sugg⟩

/- ### Helper lemmas about marker splitting -/

theorem containsSeq_of_startsWithSeq {pat t : List Char}
    (h : startsWithSeq pat t = true) : containsSeq pat t = true := by
  cases t with
  | nil => simpa [containsSeq] using h
  | cons c r => simp [containsSeq, h]

theorem containsSeq_of_cons_pat {c : Char} {pat s : List Char}
    (h : containsSeq (c :: pat) s = true) : containsSeq pat s = true := by
  induction s with
  | nil => simp [containsSeq, startsWithSeq] at h
  | cons d r ih =>
    simp only [containsSeq, Bool.or_eq_true] at h ⊢
    rcases h with h | h
    · simp only [startsWithSeq, Bool.and_eq_true, decide_eq_true_eq] at h
      exact Or.inr (containsSeq_of_startsWithSeq h.2)
    · exact Or.inr (ih h)

theorem splitOnGo_of_not_contains {sep : List Char} :
    ∀ (s : List Char) (fuel : Nat) (acc : List Char),
      containsSeq sep s = false →
      splitOnGo sep fuel acc s = [acc.reverse ++ s] := by
  intro s
  induction s with
  | nil =>
    intro fuel acc _
    cases fuel <;> simp [splitOnGo]
  | cons c r ih =>
    intro fuel acc h
    have h1 : startsWithSeq sep (c :: r) = false := by
      cases hs : startsWithSeq sep (c :: r)
      · rfl
      · simp only [containsSeq, hs, Bool.true_or] at h
        exact h
    have h2 : containsSeq sep r = false := by
      cases hs : containsSeq sep r
      · rfl
      · simp only [containsSeq, hs, Bool.or_true] at h
        exact h
    cases fuel with
    | zero => rfl
    | succ n =>
      simp only [splitOnGo]
      rw [if_neg (by simp [h1])]
      rw [ih n (c :: acc) h2]
      simp

theorem splitOnList_of_not_contains {sep s : List Char}
    (h : containsSeq sep s = false) : splitOnList sep s = [s] := by
  unfold splitOnList
  rw [splitOnGo_of_not_contains s s.length [] h]
  simp

/- ### Claim C6 — suggestion count bounds -/

/-- C6 counterexample: a reply whose `SUGGESTED:` line carries four bracket
tokens yields four suggestions — the primary bracket-token scan applies no
cap of 3. -/
theorem extractSuggestions_primary_uncapped :
    3 < (extractSuggestions
        ("x\nSUGGESTED: [A] | [B] | [C] | [D]".toList)).suggestions.length := by
  decide

theorem heuristicSuggestions_le_five (s : List Char) :
    (heuristicSuggestions s).length ≤ 5 := by
  unfold heuristicSuggestions
  cases findCueCapture s with
  | none => simp
  | some t =>
    dsimp only
    split
    next h => exact h.2
    next => simp

/-- C6 amended: neither path caps at 3.  The primary bracket-token scan
returns one suggestion per bracket token found after the marker, uncapped
(see the counterexample), while the heuristic fallback keeps its candidates
only when at most 5 survive; consequently whenever the primary scan yields
zero suggestions the extractor returns at most 5 suggestions. -/
theorem extractSuggestions_fallback_at_most_five (s : List Char)
    (h : (primaryParse s).2 = []) :
    (extractSuggestions s).suggestions.length ≤ 5 := by
  unfold extractSuggestions
  dsimp only
  rw [h]
  simp only [List.length_nil, if_pos rfl]
  exact heuristicSuggestions_le_five s

/-- Witness for C6 (amended) at a reply with no marker and no bracket
token. -/
theorem extractSuggestions_fallback_at_most_five_witness :
    (primaryParse ("hello".toList)).2 = []
      ∧ (extractSuggestions ("hello".toList)).suggestions.length ≤ 5 :=
  ⟨by decide, extractSuggestions_fallback_at_most_five _ (by decide)⟩

/- ### Claim C7 — behaviour with no marker and no heuristic pattern -/

/-- C7 counterexample: on the marker-free, cue-free input `"hi "` the
extractor returns empty suggestions but `reply = "hi"`, the trimmed input —
`res.send({ reply: replyText?.trim(), ... })` trims the reply, so the
returned text is not the full untouched input. -/
theorem extractSuggestions_reply_trimmed :
    containsSeq markerText ("hi ".toList) = false
      ∧ findCueCapture ("hi ".toList) = none
      ∧ (extractSuggestions ("hi ".toList)).suggestions = []
      ∧ (extractSuggestions ("hi ".toList)).reply ≠ ("hi ".toList) := by
  decide

/-- C7 amended: for every reply containing no `SUGGESTED:` marker and in
which the heuristic cue-word pattern finds no match, extraction returns the
input trimmed of leading/trailing whitespace as `replyText` (hence the full
untouched input whenever it has no surrounding whitespace) and an empty
suggestions list. -/
theorem extractSuggestions_no_marker_no_cue (s : List Char)
    (h1 : containsSeq markerText s = false)
    (h2 : findCueCapture s = none) :
    extractSuggestions s = ⟨jsTrim s, []⟩ := by
  have hNL : containsSeq markerNL s = false := by
    cases hc : containsSeq markerNL s
    · rfl
    · have h3 := containsSeq_of_cons_pat hc
      rw [h1] at h3
      exact absurd h3 (by simp)
  have e1 : splitOnList markerNL s = [s] := splitOnList_of_not_contains hNL
  have e2 : splitOnList markerText s = [s] := splitOnList_of_not_contains h1
  have hp : primaryParse s = (s, []) := by
    unfold primaryParse
    rw [e1, e2]
    simp
  unfold extractSuggestions
  rw [hp]
  simp [heuristicSuggestions, h2]

/-- Witness for C7 (amended) at the marker-free, cue-free input `"hello"`. -/
theorem extractSuggestions_no_marker_no_cue_witness :
    (containsSeq markerText ("hello".toList) = false
        ∧ findCueCapture ("hello".toList) = none)
      ∧ extractSuggestions ("hello".toList) = ⟨jsTrim ("hello".toList), []⟩ :=
  ⟨⟨by decide, by decide⟩,
    extractSuggestions_no_marker_no_cue ("hello".toList) (by decide)
      (by decide)⟩
